import Mathlib

/-!
Shallow embedding of the job ranking pipeline of the `job_crawler`
repository (files `main.py` and `param_job_agent.py`): the `Job` and
`UserProfile` records, profile updates (`set_user_profile`), salary text
parsing (`extract_salary_amount`), match scoring
(`calculate_match_score`), and the deduplicate / score / filter / sort /
truncate pipeline of `search_fintech_jobs`.

Python strings are modelled as `String` / `List Char`; `str.lower` is
modelled on the ASCII range (all data handled by the program's keyword
lists is ASCII); Python float arithmetic on the score is exact on the
integral values produced here, and is modelled by `ℚ`; Python `int` is
modelled by `ℤ` (non-negative parses by `ℕ`).
-/

open List

namespace JobCrawler

/-- `Job` dataclass from `job.py`: title, company, location, optional
salary text, description, url, source, and a mutable `match_score`
defaulting to `0.0`. -/
structure Job where
  title : String
  company : String
  location : String
  salary : Option String
  description : String
  url : String
  source : String
  match_score : ℚ := 0
deriving DecidableEq

/-- `UserProfile` dataclass from `user_profile.py`: three string lists
and an integer `min_salary` defaulting to `50000`. -/
structure UserProfile where
  skills : List String
  experience : List String
  qualifications : List String
  min_salary : ℤ := 50000
deriving DecidableEq

/-- A `profile_data` dict as consumed by `set_user_profile`: each of the
four keys may be present (`some`) or absent (`none`). -/
structure ProfileData where
  skills : Option (List String)
  experience : Option (List String)
  qualifications : Option (List String)
  min_salary : Option ℤ
deriving DecidableEq

/-- `ParamJobAgent.set_user_profile` (`main.py` lines 42-51): each key
present in `profile_data` overwrites the corresponding profile field;
absent keys leave the field untouched. -/
def set_user_profile (p : UserProfile) (d : ProfileData) : UserProfile :=
  let p1 := match d.skills with
    | some v => { p with skills := v }
    | none => p
  let p2 := match d.experience with
    | some v => { p1 with experience := v }
    | none => p1
  let p3 := match d.qualifications with
    | some v => { p2 with qualifications := v }
    | none => p2
  match d.min_salary with
  | some v => { p3 with min_salary := v }
  | none => p3

/-- The profile created in `ParamJobAgent.__init__`:
`UserProfile(skills=[], experience=[], qualifications=[])`, with the
dataclass default `min_salary=50000`. -/
def initial_profile : UserProfile :=
  { skills := [], experience := [], qualifications := [], min_salary := 50000 }

/-- Profile states reachable from agent creation by any sequence of
`set_user_profile` calls. -/
inductive ReachableProfile : UserProfile → Prop
  | init : ReachableProfile initial_profile
  | step (p : UserProfile) (d : ProfileData) :
      ReachableProfile p → ReachableProfile (set_user_profile p d)

/-- Profile states reachable when every update that supplies
`min_salary` supplies a non-negative value. -/
inductive ReachableProfileNN : UserProfile → Prop
  | init : ReachableProfileNN initial_profile
  | step (p : UserProfile) (d : ProfileData) :
      (∀ v : ℤ, d.min_salary = some v → 0 ≤ v) →
      ReachableProfileNN p → ReachableProfileNN (set_user_profile p d)

/-! ### Salary text parsing (`extract_salary_amount`, `main.py` lines 232-254) -/

/-- Numeric value of a list of decimal digit characters, as computed by
Python `int` on the corresponding string. -/
def digitsVal (l : List Char) : ℕ :=
  l.foldl (fun acc c => 10 * acc + (c.toNat - 48)) 0

/-- Character class of the regex `[\d,]`. -/
def isDigitOrComma (c : Char) : Bool :=
  c.isDigit || c = ','

/-- First match of the regex `£([\d,]+)` in a character list: scanning
left to right, at the first `£` that is followed by a non-empty maximal
(greedy) run of digits/commas, return that run. -/
def findPoundRun : List Char → Option (List Char)
  | [] => none
  | c :: cs =>
    if c = '£' ∧ cs.takeWhile isDigitOrComma ≠ [] then
      some (cs.takeWhile isDigitOrComma)
    else
      findPoundRun cs

/-- First match of the regex `(\d{2,6})`: scanning left to right, at the
first position starting a digit run of length ≥ 2, return the first
(greedy, at most 6) digits of that run. -/
def findDigitRun : List Char → Option (List Char)
  | [] => none
  | c :: cs =>
    if c.isDigit ∧ cs.takeWhile Char.isDigit ≠ [] then
      some ((c :: cs.takeWhile Char.isDigit).take 6)
    else
      findDigitRun cs

/-- `ParamJobAgent.extract_salary_amount`: `0` for an empty string;
otherwise the first `£([\d,]+)` match on the text with spaces removed
(commas stripped before conversion, falling through when the captured
group is all commas and `int()` would raise); otherwise the first
`(\d{2,6})` match on the text with commas removed; otherwise `0`. -/
def extract_salary_amount (salary_text : String) : ℕ :=
  if salary_text = "" then 0
  else
    let fallback : ℕ :=
      match findDigitRun (salary_text.data.filter (fun c => c ≠ ',')) with
      | some ds => digitsVal ds
      | none => 0
    match findPoundRun (salary_text.data.filter (fun c => c ≠ ' ')) with
    | some run =>
      let ds := run.filter (fun c => c ≠ ',')
      if ds = [] then fallback else digitsVal ds
    | none => fallback


/-! ### Match scoring (`calculate_match_score`, `main.py` lines 256-289) -/

/-- Python `a.startswith(b)`-style check on character lists: `needle` is
an initial segment of `hay`. -/
def startsWithL : List Char → List Char → Bool
  | [], _ => true
  | _ :: _, [] => false
  | a :: as, b :: bs => a == b && startsWithL as bs

/-- Python `needle in hay` on strings: substring containment (the empty
needle is contained in everything). -/
def containsL (needle : List Char) : List Char → Bool
  | [] => needle.isEmpty
  | c :: rest => startsWithL needle (c :: rest) || containsL needle rest

/-- Python `str.lower` on the ASCII range, as a character list. -/
def lowerChars (s : String) : List Char :=
  s.data.map Char.toLower

/-- `ParamJobAgent.fintech_keywords` (`main.py` lines 34-40). -/
def fintech_keywords : List String :=
  ["fintech", "financial technology", "banking", "payments", "cryptocurrency",
   "blockchain", "trading", "investment", "wealth management", "insurtech",
   "regtech", "digital banking", "mobile payments", "peer-to-peer",
   "robo-advisor", "algorithmic trading", "risk management", "financial services",
   "payment processing", "open banking", "neobank", "digital wallet"]

/-- The "job text": `f"{job.title} {job.description}".lower()`. -/
def jobText (job : Job) : List Char :=
  lowerChars (job.title ++ " " ++ job.description)

/-- The salary-bonus condition of `calculate_match_score`:
`job.salary and self.extract_salary_amount(job.salary) >= self.user_profile.min_salary`
(`job.salary` is truthy iff present and non-empty). -/
def salaryBonusOk (profile : UserProfile) (job : Job) : Bool :=
  match job.salary with
  | none => false
  | some s =>
    if s = "" then false
    else decide (profile.min_salary ≤ (extract_salary_amount s : ℤ))

/-- The title-relevance condition:
`any(keyword in job.title.lower() for keyword in ['senior', 'lead', 'principal'])`. -/
def titleSeniorOk (job : Job) : Bool :=
  ["senior", "lead", "principal"].any (fun kw => containsL kw.data (lowerChars job.title))

/-- `ParamJobAgent.calculate_match_score`: sequential accumulation of
keyword, skill, experience and qualification substring counts with
weights 10/15/12/8, a flat 20 salary bonus, a flat 10 title-seniority
bonus, capped at `100.0`.  Every contribution in the Python code is a
non-negative integer and the float accumulator is exact on integers of
this size, so the accumulation is carried out in `ℕ` and the capped
result is cast to `ℚ` (the `match_score` type). -/
def calculate_match_score (profile : UserProfile) (job : Job) : ℚ :=
  let score : ℕ := 0
  let text := jobText job
  let fintech_matches := fintech_keywords.countP (fun kw => containsL (lowerChars kw) text)
  let score := score + fintech_matches * 10
  let skill_matches := profile.skills.countP (fun sk => containsL (lowerChars sk) text)
  let score := score + skill_matches * 15
  let exp_matches := profile.experience.countP (fun e => containsL (lowerChars e) text)
  let score := score + exp_matches * 12
  let qual_matches := profile.qualifications.countP (fun q => containsL (lowerChars q) text)
  let score := score + qual_matches * 8
  let score := if salaryBonusOk profile job then score + 20 else score
  let score := if titleSeniorOk job then score + 10 else score
  ((min score 100 : ℕ) : ℚ)

/-- The profile of the spec's end-to-end scenario:
`skills=["python"], min_salary=50000`, other lists empty. -/
def profileC4 : UserProfile :=
  { skills := ["python"], experience := [], qualifications := [], min_salary := 50000 }

/-- Listing A of the spec's end-to-end scenario. -/
def jobA : Job :=
  { title := "Senior Python Developer", company := "Acme", location := "London",
    salary := some "£60000", description := "fintech payments platform",
    url := "u1", source := "Indeed UK" }

/-- Listing B of the spec's end-to-end scenario: no matching text, no
salary. -/
def jobB : Job :=
  { title := "Office Cleaner", company := "Acme", location := "London",
    salary := none, description := "cleaning duties",
    url := "u2", source := "Indeed UK" }


/-! ### The ranking pipeline of `search_fintech_jobs` (`main.py` lines 310-330) -/

/-- The deduplication loop of `search_fintech_jobs`, with the `seen_urls`
set made explicit:
`if job.url and job.url not in seen_urls: seen_urls.add(job.url); unique_jobs.append(job)`. -/
def dedupAux : List Job → List String → List Job
  | [], _ => []
  | j :: js, seen =>
    if j.url ≠ "" ∧ j.url ∉ seen then j :: dedupAux js (j.url :: seen)
    else dedupAux js seen

/-- The deduplication stage: run the loop with an initially empty
`seen_urls` set. -/
def dedupJobs (jobs : List Job) : List Job :=
  dedupAux jobs []

/-- The scoring pass: `job.match_score = self.calculate_match_score(job)`
for each deduplicated job, in place. -/
def scoreJobs (profile : UserProfile) (jobs : List Job) : List Job :=
  jobs.map (fun j => { j with match_score := calculate_match_score profile j })

/-- The ordering used by `relevant_jobs.sort(key=lambda x: x.match_score, reverse=True)`:
`a` may come before `b` when scores are non-increasing. -/
def jobSortRel (a b : Job) : Prop :=
  b.match_score ≤ a.match_score

instance : DecidableRel jobSortRel :=
  fun a b => inferInstanceAs (Decidable (b.match_score ≤ a.match_score))

instance : IsTotal Job jobSortRel :=
  ⟨fun a b => le_total b.match_score a.match_score⟩

instance : IsTrans Job jobSortRel :=
  ⟨fun _ _ _ hab hbc => le_trans hbc hab⟩

/-- The threshold predicate of
`relevant_jobs = [job for job in unique_jobs if job.match_score > 20]`. -/
def relevant (j : Job) : Bool :=
  decide ((20 : ℚ) < j.match_score)

/-- The filter / sort / truncate stage of `search_fintech_jobs`: keep
scores strictly above 20, sort by score descending (Python `list.sort`
is stable; any stable sort computes the same list, here insertion sort
with the descending relation), return the first `limit` entries. -/
def filter_sort_truncate (jobs : List Job) (limit : ℕ) : List Job :=
  (((jobs.filter relevant).insertionSort jobSortRel).take limit)

/-- `search_fintech_jobs` after collection: deduplicate the gathered
`all_jobs`, score each survivor, filter, sort descending, truncate. -/
def search_fintech_jobs (profile : UserProfile) (all_jobs : List Job) (limit : ℕ) : List Job :=
  filter_sort_truncate (scoreJobs profile (dedupJobs all_jobs)) limit

/-! ### Auxiliary definitions used by the verification -/

/-- The scoring formula as the specification states it (§4.2): the
weighted sum of the four substring counts plus the two flat bonuses,
computed in the score's numeric type and clamped to a maximum of
`100.0`.  Compared with the sequentially-accumulated `calculate_match_score`
translated from the code. -/
def spec_match_score (profile : UserProfile) (job : Job) : ℚ :=
  let text := jobText job
  let domain_matches := (fintech_keywords.countP (fun kw => containsL (lowerChars kw) text) : ℚ)
  let skill_matches := (profile.skills.countP (fun sk => containsL (lowerChars sk) text) : ℚ)
  let exp_matches := (profile.experience.countP (fun e => containsL (lowerChars e) text) : ℚ)
  let qual_matches := (profile.qualifications.countP (fun q => containsL (lowerChars q) text) : ℚ)
  let salary_bonus : ℚ := if salaryBonusOk profile job then 20 else 0
  let seniority_bonus : ℚ := if titleSeniorOk job then 10 else 0
  min (domain_matches * 10 + skill_matches * 15 + exp_matches * 12 + qual_matches * 8 +
    salary_bonus + seniority_bonus) 100

/-- A listing with an empty `url`. -/
def jobNoUrl : Job :=
  { title := "Mystery Role", company := "Acme", location := "London",
    salary := none, description := "unknown", url := "", source := "Reed" }

/-- A profile update that supplies only a negative `min_salary`. -/
def negUpdate : ProfileData :=
  { skills := none, experience := none, qualifications := none, min_salary := some (-1) }

/-- The profile state produced by applying `negUpdate` to the initial
profile. -/
def negProfile : UserProfile :=
  { skills := [], experience := [], qualifications := [], min_salary := -1 }

/-- A scored listing with `match_score` 30, for concrete pipeline runs. -/
def jobHi : Job :=
  { title := "Backend Developer", company := "Acme", location := "London",
    salary := none, description := "payments", url := "u3", source := "Reed",
    match_score := 30 }

/-- A scored listing with `match_score` 10, for concrete pipeline runs. -/
def jobLo : Job :=
  { title := "Tester", company := "Acme", location := "London",
    salary := none, description := "testing", url := "u4", source := "Reed",
    match_score := 10 }

/-! ### Helper lemmas about the deduplication loop -/

theorem dedupAux_congr_seen (l : List Job) :
    ∀ seen₁ seen₂ : List String, (∀ s, s ∈ seen₁ ↔ s ∈ seen₂) →
      dedupAux l seen₁ = dedupAux l seen₂ := by
  induction l with
  | nil => intro _ _ _; rfl
  | cons j js ih =>
    intro s1 s2 h
    simp only [dedupAux]
    by_cases h1 : j.url ≠ "" ∧ j.url ∉ s1
    · have h2 : j.url ≠ "" ∧ j.url ∉ s2 := ⟨h1.1, fun hm => h1.2 ((h _).mpr hm)⟩
      rw [if_pos h1, if_pos h2, ih _ _ ?_]
      intro s
      simp only [List.mem_cons]
      exact or_congr Iff.rfl (h s)
    · have h2 : ¬(j.url ≠ "" ∧ j.url ∉ s2) := by
        intro hc
        exact h1 ⟨hc.1, fun hm => hc.2 ((h _).mp hm)⟩
      rw [if_neg h1, if_neg h2, ih _ _ h]

theorem dedupAux_cons_seen (l : List Job) :
    ∀ (u : String) (seen : List String),
      dedupAux l (u :: seen) = dedupAux (l.filter fun x => decide (x.url ≠ u)) seen := by
  induction l with
  | nil => intro _ _; rfl
  | cons j js ih =>
    intro u seen
    by_cases hju : j.url = u
    · have hdrop : (decide (j.url ≠ u)) = false := by simp [hju]
      have hcond : ¬(j.url ≠ "" ∧ j.url ∉ (u :: seen)) := by
        intro h
        exact h.2 (by simp [hju])
      simp only [dedupAux, List.filter_cons, hdrop, if_neg hcond, Bool.false_eq_true, if_false]
      exact ih u seen
    · have hkeep : (decide (j.url ≠ u)) = true := by simp [hju]
      simp only [List.filter_cons, hkeep, if_true]
      by_cases hc : j.url ≠ "" ∧ j.url ∉ seen
      · have hc1 : j.url ≠ "" ∧ j.url ∉ (u :: seen) := ⟨hc.1, by simp [hju, hc.2]⟩
        simp only [dedupAux, if_pos hc1, if_pos hc]
        congr 1
        calc dedupAux js (j.url :: u :: seen)
            = dedupAux js (u :: j.url :: seen) := by
              refine dedupAux_congr_seen js _ _ fun s => ?_
              simp only [List.mem_cons]
              tauto
          _ = dedupAux (js.filter fun x => decide (x.url ≠ u)) (j.url :: seen) :=
              ih u (j.url :: seen)
      · have hc1 : ¬(j.url ≠ "" ∧ j.url ∉ (u :: seen)) := by
          intro h
          exact hc ⟨h.1, fun hm => h.2 (by simp [hm])⟩
        simp only [dedupAux, if_neg hc1, if_neg hc]
        exact ih u seen

theorem dedupAux_sublist (l : List Job) :
    ∀ seen : List String, dedupAux l seen <+ l := by
  induction l with
  | nil => intro _; exact Sublist.refl _
  | cons j js ih =>
    intro seen
    simp only [dedupAux]
    by_cases hc : j.url ≠ "" ∧ j.url ∉ seen
    · rw [if_pos hc]
      exact (ih _).cons₂ j
    · rw [if_neg hc]
      exact (ih _).cons j

theorem dedupAux_props (l : List Job) :
    ∀ seen : List String,
      (∀ j ∈ dedupAux l seen, j.url ≠ "" ∧ j.url ∉ seen) ∧
        ((dedupAux l seen).map Job.url).Nodup := by
  induction l with
  | nil => intro _; simp [dedupAux]
  | cons j js ih =>
    intro seen
    simp only [dedupAux]
    by_cases hc : j.url ≠ "" ∧ j.url ∉ seen
    · rw [if_pos hc]
      obtain ⟨ihmem, ihnd⟩ := ih (j.url :: seen)
      refine ⟨?_, ?_⟩
      · intro k hk
        rcases List.mem_cons.mp hk with hk0 | hk'
        · exact hk0 ▸ hc
        · have h := ihmem k hk'
          exact ⟨h.1, fun hm => h.2 (List.mem_cons_of_mem _ hm)⟩
      · simp only [List.map_cons, List.nodup_cons]
        refine ⟨?_, ihnd⟩
        intro hmem
        obtain ⟨k, hk, hke⟩ := List.mem_map.mp hmem
        exact (ihmem k hk).2 (by rw [hke]; exact List.mem_cons_self _ _)
    · rw [if_neg hc]
      exact ih seen

/-! ### Claim theorems -/

/-- C1 counterexample: the claim asserts that a listing with empty `url`
is always retained by the deduplication stage, but the loop guard
`if job.url and job.url not in seen_urls` drops it: deduplicating the
one-element list containing an empty-url listing yields the empty
list. -/
theorem C1_counterexample : jobNoUrl.url = "" ∧ dedupJobs [jobNoUrl] = [] := by
  decide

/-- C1 (amended): the deduplication stage preserves first-seen order and
keeps, for each non-empty `url`, exactly the first-encountered listing
with that `url`; listings whose `url` is empty are removed, not
retained.  Stated as the complete recursive characterisation: the empty
input gives the empty output; the output is a subsequence of the input;
a head with empty `url` is dropped; a head with non-empty `url` is kept
and every later listing with the same `url` is discarded. -/
theorem C1_dedup (j : Job) (l : List Job) :
    dedupJobs ([] : List Job) = []
      ∧ dedupJobs (j :: l) <+ j :: l
      ∧ (j.url = "" → dedupJobs (j :: l) = dedupJobs l)
      ∧ (j.url ≠ "" →
          dedupJobs (j :: l) = j :: dedupJobs (l.filter fun x => decide (x.url ≠ j.url))) := by
  refine ⟨rfl, dedupAux_sublist _ _, ?_, ?_⟩
  · intro h
    simp only [dedupJobs, dedupAux, h]
    simp
  · intro h
    have hc : j.url ≠ "" ∧ j.url ∉ ([] : List String) := ⟨h, by simp⟩
    simp only [dedupJobs, dedupAux, if_pos hc]
    rw [dedupAux_cons_seen]

/-- Witness for C1: a concrete duplicate-url input run through the
amended characterisation. -/
theorem C1_dedup_witness :
    jobA.url ≠ "" ∧
      dedupJobs (jobA :: [jobA]) =
        jobA :: dedupJobs ([jobA].filter fun x => decide (x.url ≠ jobA.url)) :=
  ⟨by decide, (C1_dedup jobA [jobA]).2.2.2 (by decide)⟩

/-- C10: every listing returned by a ranking run has a non-empty `url`,
and the returned `url`s are pairwise distinct. -/
theorem C10_output_urls (profile : UserProfile) (all_jobs : List Job) (limit : ℕ) :
    (∀ j ∈ search_fintech_jobs profile all_jobs limit, j.url ≠ "")
      ∧ ((search_fintech_jobs profile all_jobs limit).map Job.url).Nodup := by
  obtain ⟨hmem, hnd⟩ := dedupAux_props all_jobs ([] : List String)
  have hscored_mem : ∀ j ∈ scoreJobs profile (dedupJobs all_jobs), j.url ≠ "" := by
    intro j hj
    obtain ⟨k, hk, hke⟩ := List.mem_map.mp hj
    have := (hmem k hk).1
    rw [← hke]
    exact this
  have hscored_map : (scoreJobs profile (dedupJobs all_jobs)).map Job.url =
      (dedupJobs all_jobs).map Job.url := by
    simp only [scoreJobs, List.map_map]
    rfl
  have hscored_nd : ((scoreJobs profile (dedupJobs all_jobs)).map Job.url).Nodup := by
    rw [hscored_map]
    exact hnd
  set scored := scoreJobs profile (dedupJobs all_jobs) with hs
  have hfilter_nd : ((scored.filter relevant).map Job.url).Nodup :=
    hscored_nd.sublist ((List.filter_sublist scored).map Job.url)
  have hsort_perm : (scored.filter relevant).insertionSort jobSortRel ~ scored.filter relevant :=
    List.perm_insertionSort jobSortRel _
  have hsort_nd : (((scored.filter relevant).insertionSort jobSortRel).map Job.url).Nodup :=
    ((hsort_perm.map Job.url).nodup_iff).mpr hfilter_nd
  constructor
  · intro j hj
    have hj1 : j ∈ (scored.filter relevant).insertionSort jobSortRel :=
      List.take_subset _ _ hj
    have hj2 : j ∈ scored.filter relevant := hsort_perm.mem_iff.mp hj1
    exact hscored_mem j (List.mem_of_mem_filter hj2)
  · exact hsort_nd.sublist ((List.take_sublist _ _).map Job.url)

/-! ### Stability of the descending sort -/

theorem filter_score_orderedInsert (s : ℚ) (a : Job) (l : List Job) :
    (List.orderedInsert jobSortRel a l).filter (fun j => decide (j.match_score = s)) =
      if a.match_score = s then
        a :: l.filter (fun j => decide (j.match_score = s))
      else
        l.filter (fun j => decide (j.match_score = s)) := by
  induction l with
  | nil =>
    by_cases ha : a.match_score = s <;>
      simp [List.orderedInsert, List.filter_cons, ha]
  | cons b bs ih =>
    simp only [List.orderedInsert]
    by_cases hr : jobSortRel a b
    · rw [if_pos hr]
      by_cases ha : a.match_score = s <;>
        simp [List.filter_cons, ha]
    · rw [if_neg hr]
      have hb_gt : a.match_score < b.match_score := by
        have := not_le.mp (fun h => hr h)
        exact this
      by_cases ha : a.match_score = s
      · have hbs : b.match_score ≠ s := by
          intro hbe
          rw [← ha] at hbe
          exact absurd hbe (ne_of_gt hb_gt)
        rw [if_pos ha]
        rw [List.filter_cons_of_neg (by simp [hbs]), List.filter_cons_of_neg (by simp [hbs])]
        rw [ih, if_pos ha]
      · rw [if_neg ha]
        by_cases hbs : b.match_score = s
        · rw [List.filter_cons_of_pos (by simp [hbs]), List.filter_cons_of_pos (by simp [hbs])]
          rw [ih, if_neg ha]
        · rw [List.filter_cons_of_neg (by simp [hbs]), List.filter_cons_of_neg (by simp [hbs])]
          rw [ih, if_neg ha]

theorem filter_score_insertionSort (s : ℚ) (l : List Job) :
    (l.insertionSort jobSortRel).filter (fun j => decide (j.match_score = s)) =
      l.filter (fun j => decide (j.match_score = s)) := by
  induction l with
  | nil => rfl
  | cons a l ih =>
    simp only [List.insertionSort]
    rw [filter_score_orderedInsert]
    by_cases ha : a.match_score = s
    · rw [if_pos ha, ih, List.filter_cons_of_pos (by simp [ha])]
    · rw [if_neg ha, ih, List.filter_cons_of_neg (by simp [ha])]

/-- C3: the filter/sort/truncate stage keeps exactly the listings with
`match_score > 20`, in stable descending score order, truncated to
`limit`: every output listing scores above 20; the output has at most
`limit` entries; it is sorted by non-increasing score; when at most
`limit` listings qualify, all of them are returned; the output is the
`limit`-prefix of a list that permutes the qualifying listings, is
sorted by non-increasing score, and preserves the input's relative
order at every fixed score (the stable descending sort); and an
empty-or-all-below-threshold input gives the empty output. -/
theorem C3_filter_sort_truncate (jobs : List Job) (limit : ℕ) (_hpos : 0 < limit) :
    (∀ j ∈ filter_sort_truncate jobs limit, (20 : ℚ) < j.match_score)
      ∧ (filter_sort_truncate jobs limit).length ≤ limit
      ∧ List.Pairwise jobSortRel (filter_sort_truncate jobs limit)
      ∧ ((jobs.filter relevant).length ≤ limit →
          filter_sort_truncate jobs limit ~ jobs.filter relevant)
      ∧ (∃ sorted : List Job,
          filter_sort_truncate jobs limit = sorted.take limit
            ∧ sorted ~ jobs.filter relevant
            ∧ List.Pairwise jobSortRel sorted
            ∧ ∀ s : ℚ, sorted.filter (fun j => decide (j.match_score = s)) =
                (jobs.filter relevant).filter (fun j => decide (j.match_score = s)))
      ∧ (jobs.filter relevant = [] → filter_sort_truncate jobs limit = []) := by
  have hperm : (jobs.filter relevant).insertionSort jobSortRel ~ jobs.filter relevant :=
    List.perm_insertionSort jobSortRel _
  have hsorted : List.Pairwise jobSortRel ((jobs.filter relevant).insertionSort jobSortRel) :=
    List.sorted_insertionSort jobSortRel _
  refine ⟨?_, ?_, ?_, ?_, ?_, ?_⟩
  · intro j hj
    have hj1 : j ∈ (jobs.filter relevant).insertionSort jobSortRel :=
      List.take_subset _ _ hj
    have hj2 : j ∈ jobs.filter relevant := hperm.mem_iff.mp hj1
    have := List.of_mem_filter hj2
    simpa [relevant] using this
  · simp only [filter_sort_truncate, List.length_take]
    exact min_le_left limit _
  · exact hsorted.sublist (List.take_sublist _ _)
  · intro hlen
    have hlen' : ((jobs.filter relevant).insertionSort jobSortRel).length ≤ limit := by
      rw [List.length_insertionSort]
      exact hlen
    have : filter_sort_truncate jobs limit = (jobs.filter relevant).insertionSort jobSortRel :=
      List.take_of_length_le hlen'
    rw [this]
    exact hperm
  · exact ⟨(jobs.filter relevant).insertionSort jobSortRel, rfl, hperm, hsorted,
      fun s => filter_score_insertionSort s _⟩
  · intro hnil
    simp [filter_sort_truncate, hnil]

/-- Witness for C3: a two-listing input with scores 30 and 10 and limit
2; the stage returns exactly the qualifying listing. -/
theorem C3_witness :
    0 < 2 ∧ ([jobLo, jobHi].filter relevant).length ≤ 2 ∧
      filter_sort_truncate [jobLo, jobHi] 2 ~ [jobLo, jobHi].filter relevant :=
  ⟨by decide, by decide,
    (C3_filter_sort_truncate [jobLo, jobHi] 2 (by decide)).2.2.2.1 (by decide)⟩

/-- C2: the computed match score equals the specification's closed
formula: 10 per matching domain keyword, 15 per matching skill, 12 per
matching experience entry, 8 per matching qualification, a flat 20 when
the salary is present, non-empty and parses to at least `min_salary`, a
flat 10 for a senior/lead/principal title, clamped to at most 100. -/
theorem C2_score_formula (profile : UserProfile) (job : Job) :
    calculate_match_score profile job = spec_match_score profile job := by
  simp only [calculate_match_score, spec_match_score]
  cases hsb : salaryBonusOk profile job <;> cases hts : titleSeniorOk job <;>
    simp only [if_true, if_false, Bool.false_eq_true] <;>
    rw [Nat.cast_min] <;>
    · congr 1
      push_cast
      ring

/-- C6: the match score is always between 0 and 100. -/
theorem C6_score_bounds (profile : UserProfile) (job : Job) :
    0 ≤ calculate_match_score profile job ∧ calculate_match_score profile job ≤ 100 := by
  obtain ⟨n, he, hle⟩ : ∃ n : ℕ, calculate_match_score profile job = (n : ℚ) ∧ n ≤ 100 :=
    ⟨_, rfl, min_le_right _ _⟩
  rw [he]
  constructor
  · exact Nat.cast_nonneg n
  · exact_mod_cast hle

/-- C7: extending the profile's skill list with one additional skill
that occurs in the job text never decreases the computed match score. -/
theorem C7_skill_monotone (profile : UserProfile) (job : Job) (sk : String)
    (h : containsL (lowerChars sk) (jobText job) = true) :
    calculate_match_score profile job ≤
      calculate_match_score { profile with skills := profile.skills ++ [sk] } job := by
  have hsb : salaryBonusOk { profile with skills := profile.skills ++ [sk] } job =
      salaryBonusOk profile job := rfl
  have hc : ({ profile with skills := profile.skills ++ [sk] } : UserProfile).skills.countP
      (fun s => containsL (lowerChars s) (jobText job)) =
      profile.skills.countP (fun s => containsL (lowerChars s) (jobText job)) + 1 := by
    simp [List.countP_append, List.countP_cons, h]
  simp only [calculate_match_score]
  apply Nat.cast_le.mpr
  apply min_le_min _ le_rfl
  rw [hsb, hc]
  cases hb : salaryBonusOk profile job <;> cases ht : titleSeniorOk job <;>
    simp only [if_true, if_false, Bool.false_eq_true] <;> omega

/-- Witness for C7: adding the matching skill "python" to the empty
initial profile does not decrease the score of listing A. -/
theorem C7_skill_monotone_witness :
    containsL (lowerChars "python") (jobText jobA) = true ∧
      calculate_match_score initial_profile jobA ≤
        calculate_match_score { initial_profile with
          skills := initial_profile.skills ++ ["python"] } jobA :=
  ⟨by decide, C7_skill_monotone initial_profile jobA "python" (by decide)⟩

/-- C4 counterexample: the claim (and the spec's end-to-end scenario)
puts listing A's score at 75 in the variant with the title-seniority
bonus, but the components it lists — 2 domain keywords × 10, 1 skill
× 15, salary bonus 20, seniority bonus 10 — sum to 65, and the code
indeed computes 65. -/
theorem C4_counterexample : calculate_match_score profileC4 jobA ≠ 75 := by
  decide

/-- C4 (amended): with profile skills=["python"], min_salary=50000,
listing A scores 65 in the variant with the title-seniority bonus
(2×10 + 1×15 + 20 + 10; the variant without the bonus gives 55);
listing B with no matching text and no salary scores 0; after the
strictly-greater-than-20 threshold filter only listing A survives. -/
theorem C4_scenario :
    calculate_match_score profileC4 jobA = 65
      ∧ calculate_match_score profileC4 jobB = 0
      ∧ (scoreJobs profileC4 [jobA, jobB]).filter relevant =
          [{ jobA with match_score := 65 }] := by
  decide

/-! ### Helper lemmas for salary parsing on digit-free text -/

theorem findDigitRun_eq_none {l : List Char} (h : ∀ c ∈ l, c.isDigit = false) :
    findDigitRun l = none := by
  induction l with
  | nil => rfl
  | cons c cs ih =>
    simp only [findDigitRun]
    rw [if_neg]
    · exact ih fun x hx => h x (List.mem_cons_of_mem _ hx)
    · intro hcon
      have := h c (List.mem_cons_self _ _)
      rw [hcon.1] at this
      cases this

theorem findPoundRun_no_digit {l : List Char} (h : ∀ c ∈ l, c.isDigit = false) :
    ∀ run, findPoundRun l = some run → run.filter (fun c => c ≠ ',') = [] := by
  induction l with
  | nil => intro run hr; cases hr
  | cons c cs ih =>
    intro run hr
    simp only [findPoundRun] at hr
    split at hr
    case isTrue hc =>
      obtain ⟨-, -⟩ := hc
      injection hr with hr
      subst hr
      refine List.filter_eq_nil_iff.mpr fun a ha => ?_
      have h1 : isDigitOrComma a = true := List.mem_takeWhile_imp ha
      have h2 : a ∈ cs := (List.takeWhile_sublist _).mem ha
      have h3 : a.isDigit = false := h a (List.mem_cons_of_mem _ h2)
      simp only [isDigitOrComma, h3, Bool.false_or] at h1
      simp [decide_eq_true_eq.mp h1]
    case isFalse =>
      exact ih (fun x hx => h x (List.mem_cons_of_mem _ hx)) run hr

/-- C5: salary parsing is total into the non-negative integers and
matches the spec's examples: "£60,000" parses to 60000, "50000" to
50000, "Competitive" to 0, the empty string to 0; more generally any
text containing no digit at all parses to 0. -/
theorem C5_salary_parsing :
    extract_salary_amount "£60,000" = 60000
      ∧ extract_salary_amount "50000" = 50000
      ∧ extract_salary_amount "Competitive" = 0
      ∧ extract_salary_amount "" = 0
      ∧ ∀ s : String, (∀ c ∈ s.data, c.isDigit = false) → extract_salary_amount s = 0 := by
  refine ⟨by decide, by decide, by decide, by decide, ?_⟩
  intro s h
  by_cases hs : s = ""
  · simp [extract_salary_amount, hs]
  · have hfall : (match findDigitRun (s.data.filter (fun c => c ≠ ',')) with
        | some ds => digitsVal ds
        | none => 0) = 0 := by
      rw [findDigitRun_eq_none]
      intro c hc
      exact h c (List.mem_of_mem_filter hc)
    simp only [extract_salary_amount, if_neg hs]
    cases hp : findPoundRun (s.data.filter (fun c => c ≠ ' ')) with
    | none => exact hfall
    | some run =>
      have hall : run.filter (fun c => c ≠ ',') = [] := by
        refine findPoundRun_no_digit ?_ run hp
        intro c hc
        exact h c (List.mem_of_mem_filter hc)
      simp only [hall, if_pos rfl]
      exact hfall

/-- Witness for C5: a digit-free salary text parses to 0. -/
theorem C5_salary_parsing_witness :
    (∀ c ∈ ("negotiable" : String).data, c.isDigit = false)
      ∧ extract_salary_amount "negotiable" = 0 :=
  ⟨by decide, C5_salary_parsing.2.2.2.2 "negotiable" (by decide)⟩

/-- C8: a profile update overwrites exactly the fields present in the
request, wholesale, and leaves absent fields unchanged. -/
theorem C8_profile_update (p : UserProfile) (d : ProfileData) :
    set_user_profile p d =
      { skills := d.skills.getD p.skills,
        experience := d.experience.getD p.experience,
        qualifications := d.qualifications.getD p.qualifications,
        min_salary := d.min_salary.getD p.min_salary } := by
  obtain ⟨s, e, q, m⟩ := d
  cases s <;> cases e <;> cases q <;> cases m <;> rfl

theorem set_user_profile_min_salary (p : UserProfile) (d : ProfileData) :
    (set_user_profile p d).min_salary = d.min_salary.getD p.min_salary := by
  obtain ⟨s, e, q, m⟩ := d
  cases s <;> cases e <;> cases q <;> cases m <;> rfl

/-- C9 counterexample: `set_user_profile` performs no validation, so one
update with a negative `min_salary` reaches a profile state violating
the claimed non-negativity invariant. -/
theorem C9_counterexample : ReachableProfile negProfile ∧ negProfile.min_salary < 0 := by
  constructor
  · have h := ReachableProfile.step initial_profile negUpdate ReachableProfile.init
    have he : set_user_profile initial_profile negUpdate = negProfile := by decide
    exact he ▸ h
  · decide

/-- C9 (amended): the created profile has empty skill, experience and
qualification lists and a non-negative default `min_salary` (50000),
and `min_salary` stays non-negative along every update sequence whose
updates only ever supply non-negative `min_salary` values; an update
supplying a negative value is stored unvalidated. -/
theorem C9_profile_invariant :
    initial_profile.skills = []
      ∧ initial_profile.experience = []
      ∧ initial_profile.qualifications = []
      ∧ 0 ≤ initial_profile.min_salary
      ∧ ∀ p : UserProfile, ReachableProfileNN p → 0 ≤ p.min_salary := by
  refine ⟨rfl, rfl, rfl, by decide, ?_⟩
  intro p h
  induction h with
  | init => decide
  | step p d hd hp ih =>
    rw [set_user_profile_min_salary]
    cases hm : d.min_salary with
    | none => simpa using ih
    | some v => simpa using hd v hm

/-- Witness for C9: one non-negative update keeps `min_salary`
non-negative. -/
theorem C9_profile_invariant_witness :
    0 ≤ (set_user_profile initial_profile
      { skills := none, experience := none, qualifications := none,
        min_salary := some 60000 }).min_salary :=
  C9_profile_invariant.2.2.2.2 _
    (ReachableProfileNN.step initial_profile _
      (fun v hv => by
        simp only [Option.some.injEq] at hv
        omega)
      ReachableProfileNN.init)

end JobCrawler
